import Mathlib

/-!
# AiNewsScraper: a verification development for `index.js`

The four scrapers (`scrapeBBC`, `scrapeGuardian`, `scrapeUSAToday`,
`scrapeTechCrunch`) and the five Express routes of `index.js` are embedded as
pure functions.  The HTTP client and the HTML parser are external collaborators:

* `axios.get url` is a function `fetch : Str → Option Document`
  (`none` is a rejected request);
* `cheerio.load html` is already applied: a `Document` carries what the selectors
  used in `index.js` return on it, in document order;
* `new Date().toISOString()` is the field `now` of the `World`, one reading for
  the scraper of each listing page.

A rejected promise is `Except.error`, a resolved one `Except.ok`.
-/

namespace AiNewsScraper


/-! ## Strings -/

/-- A JavaScript string, as its sequence of characters. -/
abbrev Str := List Char

/-- JavaScript truthiness of a string: every string but the empty one. -/
def truthy (s : Str) : Bool := !s.isEmpty

/-- The characters removed by `String.prototype.trim`: ECMAScript `WhiteSpace`
and `LineTerminator`. -/
def isWhiteSpace (c : Char) : Bool :=
  let n := c.toNat
  n == 0x09 || n == 0x0A || n == 0x0B || n == 0x0C || n == 0x0D || n == 0x20 ||
  n == 0xA0 || n == 0x1680 || (0x2000 ≤ n && n ≤ 0x200A) || n == 0x2028 ||
  n == 0x2029 || n == 0x202F || n == 0x205F || n == 0x3000 || n == 0xFEFF

/-- The method `String.prototype.trim`. -/
def trim (s : Str) : Str :=
  ((s.dropWhile isWhiteSpace).reverse.dropWhile isWhiteSpace).reverse

/-- The method `String.prototype.startsWith`. -/
def startsWith (s p : Str) : Bool := p.isPrefixOf s

/-- The method `String.prototype.includes`: `t` occurs in `s` at some position. -/
def includes (s t : Str) : Bool :=
  t.isPrefixOf s ||
    match s with
    | [] => false
    | _ :: cs => includes cs t

/-- Lower-casing of one character by `String.prototype.toLowerCase`.  The ASCII
capitals map to their small letters and U+0130 maps to `i` followed by U+0307;
these are the only mappings of the Unicode tables whose image holds the letter
`a` or `i`, which is all `index.js` asks of a lower-cased string.  Every other
character is left as it is. -/
def toLowerChar (c : Char) : List Char :=
  if 'A'.toNat ≤ c.toNat ∧ c.toNat ≤ 'Z'.toNat then [Char.ofNat (c.toNat + 32)]
  else if c.toNat = 0x130 then ['i', Char.ofNat 0x307]
  else [c]

/-- The method `String.prototype.toLowerCase`. -/
def toLowerCase (s : Str) : Str := (s.map toLowerChar).flatten

/-- The method `Array.prototype.join` with a separator. -/
def joinWith (sep : Str) (parts : List Str) : Str := List.intercalate sep parts

/-! ## Regular expressions

The only regular expression of `index.js` has the body `-ai\b|ai-|ai-\b` and no
flags.  It is kept as syntax and run by a matcher for the fragment it uses:
literal characters, the word-boundary assertion, sequencing and alternation. -/

/-- One term of a regular expression. -/
inductive Atom where
  | chr (c : Char)
  | wordBoundary
  deriving DecidableEq

/-- A regular expression: an alternation of sequences of terms. -/
abbrev Regex := List (List Atom)

/-- The class `\w` (without the `u` flag): `[A-Za-z0-9_]`. -/
def isWordChar (c : Char) : Bool :=
  ('a'.toNat ≤ c.toNat && c.toNat ≤ 'z'.toNat) ||
  ('A'.toNat ≤ c.toNat && c.toNat ≤ 'Z'.toNat) ||
  ('0'.toNat ≤ c.toNat && c.toNat ≤ '9'.toNat) || c == '_'

/-- Whether the character on one side of a position is a word character; there
is none at either end of the input. -/
def isWordAt : Option Char → Bool
  | some c => isWordChar c
  | none => false

/-- Match a sequence of terms at a position: `prev` is the character before the
position, `rest` the input from the position on. -/
def matchSeq : List Atom → Option Char → Str → Bool
  | [], _, _ => true
  | Atom.chr _ :: _, _, [] => false
  | Atom.chr c :: more, _, x :: xs => x == c && matchSeq more (some x) xs
  | Atom.wordBoundary :: more, prev, rest =>
      (isWordAt prev != isWordAt rest.head?) && matchSeq more prev rest

/-- Match some alternative at a position. -/
def matchHere (re : Regex) (prev : Option Char) (rest : Str) : Bool :=
  re.any fun alt => matchSeq alt prev rest

/-- Try every start position from the current one on. -/
def searchFrom (re : Regex) : Option Char → Str → Bool
  | prev, [] => matchHere re prev []
  | prev, x :: xs => matchHere re prev (x :: xs) || searchFrom re (some x) xs

/-- The method `RegExp.prototype.test` of a regular expression without flags. -/
def Regex.test (re : Regex) (s : Str) : Bool := searchFrom re none s

/-- The regular expression with body `-ai\b|ai-|ai-\b` of `scrapeUSAToday` and
`scrapeTechCrunch`. -/
def aiPattern : Regex :=
  [ [Atom.chr '-', Atom.chr 'a', Atom.chr 'i', Atom.wordBoundary],
    [Atom.chr 'a', Atom.chr 'i', Atom.chr '-'],
    [Atom.chr 'a', Atom.chr 'i', Atom.chr '-', Atom.wordBoundary] ]

/-! ## Documents, articles and the outside world -/

/-- What `index.js` reads of an `a` element. -/
structure Anchor where
  /-- The value of `$(this).attr('href')`; `none` is `undefined`. -/
  href : Option Str
  /-- The value of `$(this).attr('aria-label')`; `none` is `undefined`. -/
  ariaLabel : Option Str
  /-- The value of `$(this).text()`. -/
  text : Str
  /-- The value of `$(this).find('h2').text()`. -/
  h2Text : Str
  deriving DecidableEq

/-- A page after `cheerio.load`: the results of the selectors of `index.js`, each
in document order. -/
structure Document where
  /-- The elements of `$('a')`. -/
  anchors : List Anchor
  /-- The texts of `$('div[data-component="text-block"] p')`. -/
  textBlock : List Str
  /-- The texts of `$('div.article-body-commercial-selector p')`. -/
  articleBody : List Str
  /-- The texts of `$('div.gnt_ar_b p')`. -/
  gntArB : List Str
  /-- The texts of `$('div.entry-content p')`. -/
  entryContent : List Str
  deriving DecidableEq

/-- An article object.  A stub, as pushed by the link loop, has no `text` yet. -/
structure Article where
  title : Str
  url : Str
  source : Str
  fetched_at : Str
  text : Option Str
  deriving DecidableEq

/-- Why a scraper's promise is rejected. -/
inductive Failure where
  /-- The call `axios.get url` was rejected. -/
  | fetchError (url : Str)
  /-- A method was called on `undefined`. -/
  | typeError
  deriving DecidableEq

/-- The collaborators of one request. -/
structure World where
  /-- The call `axios.get`, with `cheerio.load` applied to the response data. -/
  fetch : Str → Option Document
  /-- The value of `new Date().toISOString()` in the scraper of a listing page. -/
  now : Str → Str

/-- The expression `articleUrl.startsWith('http') ? articleUrl : origin + articleUrl`
that every scraper uses for `fullUrl`. -/
def fullUrl (origin articleUrl : Str) : Str :=
  if startsWith articleUrl "http".toList then articleUrl else origin ++ articleUrl

/-- The second loop of every scraper: fetch each article's page in turn and set
its `text` to the selected paragraphs joined by a newline.  The first rejected
fetch rejects the scraper. -/
def fillText (fetch : Str → Option Document) (paragraphs : Document → List Str) :
    List Article → Except Failure (List Article)
  | [] => .ok []
  | article :: more =>
    match fetch article.url with
    | none => .error (.fetchError article.url)
    | some doc =>
      match fillText fetch paragraphs more with
      | .error e => .error e
      | .ok done => .ok ({ article with text := some (joinWith ['\n'] (paragraphs doc)) } :: done)

/-! ## scrapeBBC -/

def bbcListing : Str := "https://www.bbc.com/innovation/artificial-intelligence".toList

/-- The elements of `$('a[href*="/news/"]')`. -/
def bbcSelect (doc : Document) : List Anchor :=
  doc.anchors.filter fun a =>
    match a.href with
    | some h => includes h "/news/".toList
    | none => false

/-- The body of the callback of `each` in `scrapeBBC`, as a step on `articles`. -/
def bbcStep (fetchTime : Str) (articles : List Article) (a : Anchor) : List Article :=
  let title := trim a.h2Text
  match a.href with
  | none => articles
  | some articleUrl =>
    if truthy title && truthy articleUrl && !includes articleUrl "/reel/video/".toList then
      articles ++ [{ title := title, url := fullUrl "https://www.bbc.com".toList articleUrl,
                     source := "BBC".toList, fetched_at := fetchTime, text := none }]
    else articles

/-- The stub articles of `scrapeBBC` for a listing document. -/
def bbcLinks (fetchTime : Str) (doc : Document) : List Article :=
  (bbcSelect doc).foldl (bbcStep fetchTime) []

def scrapeBBC (w : World) : Except Failure (List Article) :=
  match w.fetch bbcListing with
  | none => .error (.fetchError bbcListing)
  | some doc => fillText w.fetch Document.textBlock (bbcLinks (w.now bbcListing) doc)

/-! ## scrapeGuardian -/

def guardianListing : Str :=
  "https://www.theguardian.com/technology/artificialintelligenceai".toList

/-- The condition `ariaLabel && ariaLabel.toLowerCase().includes('ai')`. -/
def guardianSelects (a : Anchor) : Bool :=
  match a.ariaLabel with
  | none => false
  | some ariaLabel => truthy ariaLabel && includes (toLowerCase ariaLabel) "ai".toList

/-- The expression `ariaLabel || title`. -/
def guardianTitle (ariaLabel : Option Str) (title : Str) : Str :=
  match ariaLabel with
  | none => title
  | some l => if truthy l then l else title

/-- The body of the callback of `each` in `scrapeGuardian`.  On a selected anchor
without `href` the call `articleUrl.startsWith` is made on `undefined` and
throws. -/
def guardianStep (fetchTime : Str) (articles : List Article) (a : Anchor) :
    Except Failure (List Article) :=
  let title := trim a.text
  if guardianSelects a then
    match a.href with
    | none => .error .typeError
    | some articleUrl =>
      .ok (articles ++ [{ title := guardianTitle a.ariaLabel title,
                          url := fullUrl "https://www.theguardian.com".toList articleUrl,
                          source := "Guardian".toList, fetched_at := fetchTime, text := none }])
  else .ok articles

/-- Run the callback over the elements in order; an exception ends the loop. -/
def eachM (step : List Article → Anchor → Except Failure (List Article)) :
    List Anchor → List Article → Except Failure (List Article)
  | [], articles => .ok articles
  | a :: more, articles =>
    match step articles a with
    | .error e => .error e
    | .ok articles' => eachM step more articles'

/-- The stub articles of `scrapeGuardian` for a listing document. -/
def guardianLinks (fetchTime : Str) (doc : Document) : Except Failure (List Article) :=
  eachM (guardianStep fetchTime) doc.anchors []

def scrapeGuardian (w : World) : Except Failure (List Article) :=
  match w.fetch guardianListing with
  | none => .error (.fetchError guardianListing)
  | some doc =>
    match guardianLinks (w.now guardianListing) doc with
    | .error e => .error e
    | .ok articles => fillText w.fetch Document.articleBody articles

/-! ## scrapeUSAToday -/

def usaTodayListing : Str := "https://www.usatoday.com/tech/".toList

/-- The condition `articleUrl && (re.test(articleUrl))` of `scrapeUSAToday` and
`scrapeTechCrunch`. -/
def aiHref (href : Option Str) : Bool :=
  match href with
  | none => false
  | some articleUrl => truthy articleUrl && aiPattern.test articleUrl

/-- The body of the callback of `each` in `scrapeUSAToday`. -/
def usaTodayStep (fetchTime : Str) (articles : List Article) (a : Anchor) : List Article :=
  match a.href with
  | none => articles
  | some articleUrl =>
    if aiHref (some articleUrl) then
      let title := trim a.text
      if truthy title then
        articles ++ [{ title := title, url := fullUrl "https://www.usatoday.com".toList articleUrl,
                       source := "USA Today".toList, fetched_at := fetchTime, text := none }]
      else articles
    else articles

/-- The stub articles of `scrapeUSAToday` for a listing document. -/
def usaTodayLinks (fetchTime : Str) (doc : Document) : List Article :=
  doc.anchors.foldl (usaTodayStep fetchTime) []

def scrapeUSAToday (w : World) : Except Failure (List Article) :=
  match w.fetch usaTodayListing with
  | none => .error (.fetchError usaTodayListing)
  | some doc => fillText w.fetch Document.gntArB (usaTodayLinks (w.now usaTodayListing) doc)

/-! ## scrapeTechCrunch -/

def techCrunchListing : Str := "https://techcrunch.com/tag/artificial-intelligence/".toList

/-- The body of the callback of `each` in `scrapeTechCrunch`. -/
def techCrunchStep (fetchTime : Str) (articles : List Article) (a : Anchor) : List Article :=
  match a.href with
  | none => articles
  | some articleUrl =>
    if aiHref (some articleUrl) then
      let title := trim a.text
      if truthy title && !includes articleUrl "chatgpt".toList then
        articles ++ [{ title := title, url := fullUrl "https://techcrunch.com".toList articleUrl,
                       source := "TechCrunch".toList, fetched_at := fetchTime, text := none }]
      else articles
    else articles

/-- The stub articles of `scrapeTechCrunch` for a listing document. -/
def techCrunchLinks (fetchTime : Str) (doc : Document) : List Article :=
  doc.anchors.foldl (techCrunchStep fetchTime) []

/-- The callback of `articles.reduce` in `scrapeTechCrunch`: `acc.find` looks for
an item with the url of `current`; `current` is appended when there is none. -/
def uniqueStep (acc : List Article) (current : Article) : List Article :=
  match acc.find? (fun item => item.url == current.url) with
  | none => acc ++ [current]
  | some _ => acc

/-- The value of `uniqueArticles`: the `reduce` from the empty array. -/
def uniqueArticles (articles : List Article) : List Article :=
  articles.foldl uniqueStep []

def scrapeTechCrunch (w : World) : Except Failure (List Article) :=
  match w.fetch techCrunchListing with
  | none => .error (.fetchError techCrunchListing)
  | some doc =>
    match fillText w.fetch Document.entryContent (techCrunchLinks (w.now techCrunchListing) doc) with
    | .error e => .error e
    | .ok articles => .ok (uniqueArticles articles)

/-! ## Routes -/

/-- What a route sends. -/
inductive Response where
  /-- The call `res.json(articles)`. -/
  | json (body : List Article)
  /-- The call `res.status(500).json({ message })`. -/
  | status500 (message : Str)
  deriving DecidableEq

/-- The filter `article => article.title` of every route. -/
def titleFilter (articles : List Article) : List Article :=
  articles.filter fun article => truthy article.title

/-- The handler of a per-source route, given the settled promise of its scraper. -/
def sourceHandler (message : Str) (result : Except Failure (List Article)) : Response :=
  match result with
  | .ok articles => .json (titleFilter articles)
  | .error _ => .status500 message

def bbcRoute (w : World) : Response :=
  sourceHandler "Error fetching BBC headlines".toList (scrapeBBC w)

def guardianRoute (w : World) : Response :=
  sourceHandler "Error fetching Guardian headlines".toList (scrapeGuardian w)

def usaTodayRoute (w : World) : Response :=
  sourceHandler "Error fetching USA Today headlines".toList (scrapeUSAToday w)

def techCrunchRoute (w : World) : Response :=
  sourceHandler "Error fetching TechCrunch headlines".toList (scrapeTechCrunch w)

/-- The handler of `/news`, given the four settled promises handed to
`Promise.all`: it resolves when all four do and rejects when one does. -/
def newsHandler (bbc guardian usaToday techCrunch : Except Failure (List Article)) :
    Response :=
  match bbc, guardian, usaToday, techCrunch with
  | .ok bbcArticles, .ok guardianArticles, .ok usaTodayArticles, .ok techCrunchArticles =>
    .json (titleFilter
      (bbcArticles ++ guardianArticles ++ usaTodayArticles ++ techCrunchArticles))
  | _, _, _, _ => .status500 "Error fetching headlines".toList

def newsRoute (w : World) : Response :=
  newsHandler (scrapeBBC w) (scrapeGuardian w) (scrapeUSAToday w) (scrapeTechCrunch w)

/-! ## Predicates, stubs and example pages used in the statements -/

/-- The four facts about `uniqueArticles`, carried together through the `reduce`. -/
structure Deduped (input output : List Article) : Prop where
  nodup : (output.map Article.url).Nodup
  sublist : List.Sublist output input
  urls : ∀ u, u ∈ output.map Article.url ↔ u ∈ input.map Article.url
  first : ∀ a ∈ output, input.find? (fun b => b.url == a.url) = some a

/-- The character before the position reached after reading `pre`, when `prev`
was the character before `pre`. -/
def lastBefore (prev : Option Char) (pre : Str) : Option Char :=
  match pre.getLast? with
  | some c => some c
  | none => prev

/-- No word character follows: the input ends or goes on with a character
outside `[A-Za-z0-9_]`. -/
def endsWord (post : Str) : Prop :=
  post = [] ∨ ∃ c rest, post = c :: rest ∧ isWordChar c = false

/-- The pattern without its third alternation. -/
def aiPatternTwo : Regex :=
  [ [Atom.chr '-', Atom.chr 'a', Atom.chr 'i', Atom.wordBoundary],
    [Atom.chr 'a', Atom.chr 'i', Atom.chr '-'] ]

/-- What the pattern accepts, in words of the href alone. -/
def AcceptsAi (href : Str) : Prop :=
  (∃ pre post, href = pre ++ "ai-".toList ++ post) ∨
  (∃ pre post, href = pre ++ "-ai".toList ++ post ∧ endsWord post)

/-- The anchors kept by the link loop of `scrapeBBC`: href containing `/news/`,
non-empty trimmed heading text, no `/reel/video/` in the href. -/
def bbcKeeps (a : Anchor) : Bool :=
  match a.href with
  | none => false
  | some h =>
    includes h "/news/".toList && truthy (trim a.h2Text) && !includes h "/reel/video/".toList

/-- The stub that the link loop of `scrapeBBC` builds from an anchor. -/
def bbcStub (fetchTime : Str) (a : Anchor) : Article :=
  { title := trim a.h2Text, url := fullUrl "https://www.bbc.com".toList (a.href.getD []),
    source := "BBC".toList, fetched_at := fetchTime, text := none }

/-- The test of `bbcStep` alone, without the selector. -/
def bbcPushes (a : Anchor) : Bool :=
  match a.href with
  | none => false
  | some h => truthy (trim a.h2Text) && truthy h && !includes h "/reel/video/".toList

/-- The news anchor of the scenario. -/
def newsAnchor : Anchor :=
  { href := some "/news/articles/abc".toList, ariaLabel := none,
    text := "AI breakthrough".toList, h2Text := "AI breakthrough".toList }

/-- The video anchor of the scenario. -/
def videoAnchor : Anchor :=
  { href := some "/reel/video/xyz".toList, ariaLabel := none,
    text := "AI video".toList, h2Text := "AI video".toList }

/-- The listing of the scenario: a news anchor and a video anchor. -/
def bbcScenario : Document :=
  { anchors := [newsAnchor, videoAnchor],
    textBlock := [], articleBody := [], gntArB := [], entryContent := [] }

/-- The anchors kept by the link loop of `scrapeUSAToday`. -/
def usaTodayKeeps (a : Anchor) : Bool :=
  aiHref a.href && truthy (trim a.text)

/-- The stub that the link loop of `scrapeUSAToday` builds from an anchor. -/
def usaTodayStub (fetchTime : Str) (a : Anchor) : Article :=
  { title := trim a.text, url := fullUrl "https://www.usatoday.com".toList (a.href.getD []),
    source := "USA Today".toList, fetched_at := fetchTime, text := none }

/-- Whether the href of an anchor is there and contains a string. -/
def hrefIncludes (a : Anchor) (t : Str) : Bool :=
  match a.href with
  | none => false
  | some h => includes h t

/-- The anchors kept by the link loop of `scrapeTechCrunch`. -/
def techCrunchKeeps (a : Anchor) : Bool :=
  aiHref a.href && truthy (trim a.text) && !hrefIncludes a "chatgpt".toList

/-- The stub that the link loop of `scrapeTechCrunch` builds from an anchor. -/
def techCrunchStub (fetchTime : Str) (a : Anchor) : Article :=
  { title := trim a.text, url := fullUrl "https://techcrunch.com".toList (a.href.getD []),
    source := "TechCrunch".toList, fetched_at := fetchTime, text := none }

/-- The stub that the link loop of `scrapeGuardian` builds from an anchor. -/
def guardianStub (fetchTime : Str) (a : Anchor) : Article :=
  { title := a.ariaLabel.getD [], url := fullUrl "https://www.theguardian.com".toList (a.href.getD []),
    source := "Guardian".toList, fetched_at := fetchTime, text := none }

/-- The anchors on which the callback of `scrapeGuardian` throws: selected, and
without href. -/
def guardianThrows (a : Anchor) : Bool :=
  guardianSelects a && a.href.isNone

/-- An article after the text loop: `text` is set from the page at its url. -/
def filled (fetch : Str → Option Document) (paragraphs : Document → List Str)
    (article : Article) : Article :=
  match fetch article.url with
  | none => article
  | some doc => { article with text := some (joinWith ['\n'] (paragraphs doc)) }

/-- The four scrapers of `index.js`. -/
inductive Source where
  | bbc
  | guardian
  | usaToday
  | techCrunch
  deriving DecidableEq

/-- The origin that the scraper puts before an href. -/
def Source.origin : Source → Str
  | .bbc => "https://www.bbc.com".toList
  | .guardian => "https://www.theguardian.com".toList
  | .usaToday => "https://www.usatoday.com".toList
  | .techCrunch => "https://techcrunch.com".toList

/-- The string that the scraper writes in the field `source`. -/
def Source.label : Source → Str
  | .bbc => "BBC".toList
  | .guardian => "Guardian".toList
  | .usaToday => "USA Today".toList
  | .techCrunch => "TechCrunch".toList

/-- The listing page of the scraper. -/
def Source.listing : Source → Str
  | .bbc => bbcListing
  | .guardian => guardianListing
  | .usaToday => usaTodayListing
  | .techCrunch => techCrunchListing

/-- The paragraph selector of the scraper's text loop. -/
def Source.paragraphs : Source → Document → List Str
  | .bbc => Document.textBlock
  | .guardian => Document.articleBody
  | .usaToday => Document.gntArB
  | .techCrunch => Document.entryContent

/-- The anchors from which the scraper's link loop builds a stub. -/
def Source.keeps : Source → Anchor → Bool
  | .bbc => bbcKeeps
  | .guardian => guardianSelects
  | .usaToday => usaTodayKeeps
  | .techCrunch => techCrunchKeeps

/-- The stub that the scraper's link loop builds. -/
def Source.stub : Source → Str → Anchor → Article
  | .bbc => bbcStub
  | .guardian => guardianStub
  | .usaToday => usaTodayStub
  | .techCrunch => techCrunchStub

/-- The link loop of the scraper. -/
def Source.links : Source → Str → Document → Except Failure (List Article)
  | .bbc, t, doc => .ok (bbcLinks t doc)
  | .guardian, t, doc => guardianLinks t doc
  | .usaToday, t, doc => .ok (usaTodayLinks t doc)
  | .techCrunch, t, doc => .ok (techCrunchLinks t doc)

/-- The scraper of a source. -/
def Source.scrape : Source → World → Except Failure (List Article)
  | .bbc => scrapeBBC
  | .guardian => scrapeGuardian
  | .usaToday => scrapeUSAToday
  | .techCrunch => scrapeTechCrunch

/-- The per-source route. -/
def Source.route : Source → World → Response
  | .bbc => bbcRoute
  | .guardian => guardianRoute
  | .usaToday => usaTodayRoute
  | .techCrunch => techCrunchRoute

/-- The dedup step is applied by `scrapeTechCrunch` alone. -/
def Source.finish : Source → List Article → List Article
  | .techCrunch => uniqueArticles
  | _ => id

/-- A string that is empty or all whitespace: `trim` leaves nothing of it. -/
def blank (s : Str) : Bool := s.all isWhiteSpace

/-- A Guardian listing whose one anchor has an aria-label with spaces around it. -/
def guardianPadded : Document :=
  { anchors := [ { href := some "/technology/2024/may/01/ai-law".toList,
                   ariaLabel := some "  AI law passes ".toList,
                   text := "More".toList, h2Text := [] } ],
    textBlock := [], articleBody := ["First.".toList, "Second.".toList], gntArB := [],
    entryContent := [] }

/-- The world in which every page is `guardianPadded`. -/
def paddedWorld : World :=
  { fetch := fun _ => some guardianPadded, now := fun _ => "2024-05-01T00:00:00.000Z".toList }

/-- The article that `/guardian` sends in `paddedWorld`. -/
def paddedArticle : Article :=
  { title := "  AI law passes ".toList,
    url := "https://www.theguardian.com/technology/2024/may/01/ai-law".toList,
    source := "Guardian".toList, fetched_at := "2024-05-01T00:00:00.000Z".toList,
    text := some "First.\nSecond.".toList }

/-- A url that begins with `http://` or with `https://`. -/
def isAbsolute (url : Str) : Bool :=
  startsWith url "http://".toList || startsWith url "https://".toList

/-- A USAToday listing whose one anchor has a relative href that starts with
`http`. -/
def httpdListing : Document :=
  { anchors := [ { href := some "httpd-ai-tips.html".toList, ariaLabel := none,
                   text := "Tips".toList, h2Text := [] } ],
    textBlock := [], articleBody := [], gntArB := [], entryContent := [] }

/-- A USAToday listing with the href of the spec's example. -/
def chipListing : Document :=
  { anchors := [ { href := some "/story/tech/2024/05/01/new-ai-chip".toList,
                   ariaLabel := none, text := " New AI chip ".toList, h2Text := [] } ],
    textBlock := [], articleBody := [], gntArB := ["One.".toList], entryContent := [] }

/-- The world in which every page is `chipListing`. -/
def chipWorld : World :=
  { fetch := fun _ => some chipListing, now := fun _ => "2024-05-01T00:00:00.000Z".toList }

/-- The article that `scrapeUSAToday` returns in `chipWorld`. -/
def chipArticle : Article :=
  { title := "New AI chip".toList,
    url := "https://www.usatoday.com/story/tech/2024/05/01/new-ai-chip".toList,
    source := "USA Today".toList, fetched_at := "2024-05-01T00:00:00.000Z".toList,
    text := some "One.".toList }

/-- An anchor without aria-label whose text is `AI`. -/
def unlabelled : Anchor :=
  { href := some "/technology/ai".toList, ariaLabel := none, text := "AI".toList, h2Text := [] }

/-- A TechCrunch listing: an AI link, a link with `chatgpt` in its href, and the AI
link once more under another text. -/
def techCrunchListingPage : Document :=
  { anchors :=
      [ { href := some "/2024/05/01/open-ai-chip/".toList, ariaLabel := none,
          text := "Chip".toList, h2Text := [] },
        { href := some "/2024/05/01/chatgpt-ai-update/".toList, ariaLabel := none,
          text := "Update".toList, h2Text := [] },
        { href := some "/2024/05/01/open-ai-chip/".toList, ariaLabel := none,
          text := "Read more".toList, h2Text := [] } ],
    textBlock := [], articleBody := [], gntArB := [], entryContent := ["Body.".toList] }

/-- The world in which every page is `techCrunchListingPage`. -/
def techCrunchWorld : World :=
  { fetch := fun _ => some techCrunchListingPage, now := fun _ => [] }

/-- A Guardian listing with one anchor: the aria-label `Main menu`, whose lower-case
form contains `ai`, and no href. -/
def noHrefListing : Document :=
  { anchors := [ { href := none, ariaLabel := some "Main menu".toList,
                   text := "Menu".toList, h2Text := [] } ],
    textBlock := [], articleBody := [], gntArB := [], entryContent := [] }

/-- The world in which every fetch succeeds with `noHrefListing`. -/
def noHrefWorld : World :=
  { fetch := fun _ => some noHrefListing, now := fun _ => "2024-05-01T00:00:00.000Z".toList }

/-- An article of the dedup example. -/
def chipFirst : Article :=
  { title := "Chip".toList, url := "https://techcrunch.com/2024/05/01/open-ai-chip/".toList,
    source := "TechCrunch".toList, fetched_at := [], text := some "Body.".toList }

/-- The same url as `chipFirst` under another title. -/
def chipAgain : Article :=
  { title := "Read more".toList, url := "https://techcrunch.com/2024/05/01/open-ai-chip/".toList,
    source := "TechCrunch".toList, fetched_at := [], text := some "Body.".toList }

/-- An article with another url. -/
def robotFirst : Article :=
  { title := "Robot".toList, url := "https://techcrunch.com/2024/05/02/ai-robot/".toList,
    source := "TechCrunch".toList, fetched_at := [], text := some "Body.".toList }

/-- The stub of the news anchor of `bbcScenario`, read at the empty time stamp. -/
def abcStub : Article :=
  { title := "AI breakthrough".toList, url := "https://www.bbc.com/news/articles/abc".toList,
    source := "BBC".toList, fetched_at := [], text := none }

/-- The article that `scrapeTechCrunch` returns in `chipWorld`. -/
def chipTechCrunch : Article :=
  { title := "New AI chip".toList,
    url := "https://techcrunch.com/story/tech/2024/05/01/new-ai-chip".toList,
    source := "TechCrunch".toList, fetched_at := "2024-05-01T00:00:00.000Z".toList,
    text := some [] }

/-! # Theorems -/

/-! ## The dedup step of scrapeTechCrunch -/

theorem uniqueArticles_append_singleton (l : List Article) (x : Article) :
    uniqueArticles (l ++ [x]) = uniqueStep (uniqueArticles l) x := by
  simp [uniqueArticles, List.foldl_append]

theorem deduped_uniqueArticles (l : List Article) : Deduped l (uniqueArticles l) := by
  induction l using List.reverseRecOn with
  | nil => exact ⟨by simp [uniqueArticles], by simp [uniqueArticles],
      by simp [uniqueArticles], by simp [uniqueArticles]⟩
  | append_singleton l x ih =>
    rw [uniqueArticles_append_singleton]
    unfold uniqueStep
    cases hfind : (uniqueArticles l).find? (fun item => item.url == x.url) with
    | none =>
      have hnot : ∀ b ∈ uniqueArticles l, b.url ≠ x.url := by
        intro b hb
        have := (List.find?_eq_none.mp hfind) b hb
        simpa using this
      have hnotl : ∀ b ∈ l, b.url ≠ x.url := by
        intro b hb hbx
        have hmem : b.url ∈ (uniqueArticles l).map Article.url :=
          (ih.urls b.url).mpr (List.mem_map_of_mem _ hb)
        obtain ⟨c, hc, hcu⟩ := List.mem_map.mp hmem
        exact hnot c hc (hcu.trans hbx)
      refine ⟨?_, ?_, ?_, ?_⟩
      · simp only [List.map_append, List.map_cons, List.map_nil]
        refine List.Nodup.append ih.nodup (List.nodup_singleton _) ?_
        intro u hu hu'
        obtain ⟨c, hc, hcu⟩ := List.mem_map.mp hu
        rw [List.mem_singleton] at hu'
        exact hnot c hc (hcu.trans hu')
      · exact List.Sublist.append ih.sublist (List.Sublist.refl _)
      · intro u
        simp only [List.map_append, List.mem_append, ih.urls u]
      · intro a ha
        rw [List.mem_append, List.mem_singleton] at ha
        rw [List.find?_append]
        rcases ha with ha | rfl
        · rw [ih.first a ha]; rfl
        · have hl : l.find? (fun b => b.url == a.url) = none := by
            rw [List.find?_eq_none]
            intro b hb
            simpa using hnotl b hb
          rw [hl]
          simp
    | some y =>
      have hy : y ∈ uniqueArticles l := List.mem_of_find?_eq_some hfind
      have hyu : y.url = x.url := by simpa using List.find?_some hfind
      refine ⟨ih.nodup, ?_, ?_, ?_⟩
      · exact ih.sublist.trans (List.sublist_append_left _ _)
      · intro u
        rw [ih.urls u]
        simp only [List.map_append, List.mem_append, List.map_cons, List.map_nil,
          List.mem_singleton]
        constructor
        · exact Or.inl
        · rintro (h | rfl)
          · exact h
          · rw [← hyu, ← ih.urls]
            exact List.mem_map_of_mem _ hy
      · intro a ha
        rw [List.find?_append, ih.first a ha]; rfl

/-- C1. What `scrapeTechCrunch` returns is `uniqueArticles` of its article list
after the text loop; and for every list of articles the list `uniqueArticles` (a) has
pairwise distinct urls, (b) is a subsequence of the input, so discovery order is
kept, (c) holds exactly the urls of the input, and (d) holds, for each url, the
article at the first position of the input that has this url. -/
theorem uniqueArticles_dedup (articles : List Article) (w : World) :
    ((uniqueArticles articles).map Article.url).Nodup ∧
    List.Sublist (uniqueArticles articles) articles ∧
    (∀ u, u ∈ (uniqueArticles articles).map Article.url ↔ u ∈ articles.map Article.url) ∧
    (∀ a ∈ uniqueArticles articles,
      articles.find? (fun b => b.url == a.url) = some a) ∧
    (∀ r, scrapeTechCrunch w = .ok r →
      ∃ doc fetched, w.fetch techCrunchListing = some doc ∧
        fillText w.fetch Document.entryContent
          (techCrunchLinks (w.now techCrunchListing) doc) = .ok fetched ∧
        r = uniqueArticles fetched) := by
  have h := deduped_uniqueArticles articles
  refine ⟨h.nodup, h.sublist, h.urls, h.first, ?_⟩
  intro r hr
  unfold scrapeTechCrunch at hr
  cases hd : w.fetch techCrunchListing with
  | none => rw [hd] at hr; cases hr
  | some doc =>
    rw [hd] at hr
    simp only at hr
    cases hf : fillText w.fetch Document.entryContent
        (techCrunchLinks (w.now techCrunchListing) doc) with
    | error e => rw [hf] at hr; cases hr
    | ok fetched =>
      rw [hf] at hr
      simp only [Except.ok.injEq] at hr
      exact ⟨doc, fetched, rfl, hf, hr.symm⟩

/-! ## The href pattern of scrapeUSAToday and scrapeTechCrunch -/

theorem lastBefore_nil (prev : Option Char) : lastBefore prev [] = prev := rfl

theorem lastBefore_cons (prev : Option Char) (x : Char) (pre : Str) :
    lastBefore prev (x :: pre) = lastBefore (some x) pre := by
  cases pre with
  | nil => rfl
  | cons y ys =>
    simp only [lastBefore, List.getLast?_cons_cons]
    rw [List.getLast?_eq_getLast _ (List.cons_ne_nil y ys)]

theorem lastBefore_append_singleton (prev : Option Char) (pre : Str) (c : Char) :
    lastBefore prev (pre ++ [c]) = some c := by
  simp [lastBefore]

theorem searchFrom_iff (re : Regex) (prev : Option Char) (s : Str) :
    searchFrom re prev s = true ↔
      ∃ pre post, s = pre ++ post ∧ matchHere re (lastBefore prev pre) post = true := by
  induction s generalizing prev with
  | nil =>
    simp only [searchFrom]
    constructor
    · intro h
      exact ⟨[], [], rfl, h⟩
    · rintro ⟨pre, post, hs, h⟩
      have hs' := hs.symm
      rw [List.append_eq_nil] at hs'
      obtain ⟨rfl, rfl⟩ := hs'
      exact h
  | cons x xs ih =>
    simp only [searchFrom, Bool.or_eq_true, ih]
    constructor
    · rintro (h | ⟨pre, post, hs, h⟩)
      · exact ⟨[], x :: xs, rfl, h⟩
      · exact ⟨x :: pre, post, by rw [hs]; rfl, by rw [lastBefore_cons]; exact h⟩
    · rintro ⟨pre, post, hs, h⟩
      cases pre with
      | nil =>
        left
        simp only [List.nil_append] at hs
        rw [hs]; exact h
      | cons y ys =>
        right
        simp only [List.cons_append, List.cons.injEq] at hs
        obtain ⟨rfl, rfl⟩ := hs
        exact ⟨ys, post, rfl, by rw [← lastBefore_cons]; exact h⟩

theorem matchSeq_chr (c : Char) (more : List Atom) (prev : Option Char) (rest : Str) :
    matchSeq (Atom.chr c :: more) prev rest = true ↔
      ∃ xs, rest = c :: xs ∧ matchSeq more (some c) xs = true := by
  cases rest with
  | nil => simp [matchSeq]
  | cons x xs =>
    simp only [matchSeq, Bool.and_eq_true, beq_iff_eq, List.cons.injEq]
    constructor
    · rintro ⟨rfl, h⟩
      exact ⟨xs, ⟨rfl, rfl⟩, h⟩
    · rintro ⟨ys, ⟨rfl, rfl⟩, h⟩
      exact ⟨rfl, h⟩

theorem matchSeq_wordBoundary (prev : Option Char) (rest : Str) :
    matchSeq [Atom.wordBoundary] prev rest = (isWordAt prev != isWordAt rest.head?) := by
  simp [matchSeq]

theorem isWordAt_head_false (post : Str) : isWordAt post.head? = false ↔ endsWord post := by
  cases post with
  | nil => simp [isWordAt, endsWord]
  | cons c rest => simp [isWordAt, endsWord]

theorem matchSeq_dashAi (prev : Option Char) (rest : Str) :
    matchSeq [Atom.chr '-', Atom.chr 'a', Atom.chr 'i', Atom.wordBoundary] prev rest = true ↔
      ∃ post, rest = "-ai".toList ++ post ∧ endsWord post := by
  simp only [matchSeq_chr, matchSeq_wordBoundary]
  have hi : isWordAt (some 'i') = true := by decide
  constructor
  · rintro ⟨r1, rfl, r2, rfl, r3, rfl, h⟩
    refine ⟨r3, rfl, ?_⟩
    rw [hi] at h
    rw [← isWordAt_head_false]
    cases hw : isWordAt r3.head? <;> simp_all
  · rintro ⟨post, rfl, h⟩
    refine ⟨_, rfl, _, rfl, post, rfl, ?_⟩
    rw [hi, (isWordAt_head_false post).mpr h]
    rfl

theorem matchSeq_aiDash (prev : Option Char) (rest : Str) :
    matchSeq [Atom.chr 'a', Atom.chr 'i', Atom.chr '-'] prev rest = true ↔
      ∃ post, rest = "ai-".toList ++ post := by
  simp only [matchSeq_chr]
  constructor
  · rintro ⟨r1, rfl, r2, rfl, r3, rfl, _⟩
    exact ⟨r3, rfl⟩
  · rintro ⟨post, rfl⟩
    exact ⟨_, rfl, _, rfl, post, rfl, rfl⟩

theorem matchSeq_aiDashBoundary (prev : Option Char) (rest : Str) :
    matchSeq [Atom.chr 'a', Atom.chr 'i', Atom.chr '-', Atom.wordBoundary] prev rest = true →
      matchSeq [Atom.chr 'a', Atom.chr 'i', Atom.chr '-'] prev rest = true := by
  simp only [matchSeq_chr]
  rintro ⟨r1, rfl, r2, rfl, r3, rfl, _⟩
  exact ⟨_, rfl, _, rfl, r3, rfl, rfl⟩

theorem matchHere_aiPattern (prev : Option Char) (rest : Str) :
    matchHere aiPattern prev rest = true ↔
      (∃ post, rest = "ai-".toList ++ post) ∨
      (∃ post, rest = "-ai".toList ++ post ∧ endsWord post) := by
  simp only [matchHere, aiPattern, List.any_cons, List.any_nil, Bool.or_false,
    Bool.or_eq_true]
  rw [matchSeq_dashAi, matchSeq_aiDash]
  constructor
  · rintro (h | h | h)
    · exact Or.inr h
    · exact Or.inl h
    · exact Or.inl ((matchSeq_aiDash prev rest).mp (matchSeq_aiDashBoundary prev rest h))
  · rintro (h | h)
    · exact Or.inr (Or.inl h)
    · exact Or.inl h

theorem matchHere_aiPatternTwo (prev : Option Char) (rest : Str) :
    matchHere aiPatternTwo prev rest = true ↔
      (∃ post, rest = "ai-".toList ++ post) ∨
      (∃ post, rest = "-ai".toList ++ post ∧ endsWord post) := by
  simp only [matchHere, aiPatternTwo, List.any_cons, List.any_nil, Bool.or_false,
    Bool.or_eq_true]
  rw [matchSeq_dashAi, matchSeq_aiDash]
  exact Or.comm

theorem test_aiPattern_iff (href : Str) : aiPattern.test href = true ↔ AcceptsAi href := by
  unfold Regex.test AcceptsAi
  rw [searchFrom_iff]
  simp only [matchHere_aiPattern]
  constructor
  · rintro ⟨pre, rest, rfl, (⟨post, rfl⟩ | ⟨post, rfl, h⟩)⟩
    · exact Or.inl ⟨pre, post, by simp⟩
    · exact Or.inr ⟨pre, post, by simp, h⟩
  · rintro (⟨pre, post, rfl⟩ | ⟨pre, post, rfl, h⟩)
    · exact ⟨pre, _, by simp, Or.inl ⟨post, rfl⟩⟩
    · exact ⟨pre, _, by simp, Or.inr ⟨post, rfl, h⟩⟩

theorem test_aiPatternTwo_iff (href : Str) :
    aiPatternTwo.test href = true ↔ AcceptsAi href := by
  unfold Regex.test AcceptsAi
  rw [searchFrom_iff]
  simp only [matchHere_aiPatternTwo]
  constructor
  · rintro ⟨pre, rest, rfl, (⟨post, rfl⟩ | ⟨post, rfl, h⟩)⟩
    · exact Or.inl ⟨pre, post, by simp⟩
    · exact Or.inr ⟨pre, post, by simp, h⟩
  · rintro (⟨pre, post, rfl⟩ | ⟨pre, post, rfl, h⟩)
    · exact ⟨pre, _, by simp, Or.inl ⟨post, rfl⟩⟩
    · exact ⟨pre, _, by simp, Or.inr ⟨post, rfl, h⟩⟩

theorem aiHref_chip : aiHref (some "/story/tech/2024/05/01/new-ai-chip".toList) = true := by
  decide

theorem aiHref_sailing : aiHref (some "/story/tech/sailing-regatta".toList) = false := by
  decide

/-- C7. The relevance test shared by `scrapeUSAToday` and `scrapeTechCrunch` accepts
an href if and only if the href contains `ai-`, or contains `-ai` followed by the
end of the string or by a character outside `[A-Za-z0-9_]`; dropping the third
alternation accepts the same hrefs.  An anchor with href
`/story/tech/2024/05/01/new-ai-chip` is pushed by both loops exactly when its
trimmed text is non-empty, and an anchor with href `/story/tech/sailing-regatta`
is pushed by neither. -/
theorem aiPattern_accepts (href : Str) (fetchTime : Str) (articles : List Article)
    (a : Anchor) :
    (aiPattern.test href = true ↔
      (∃ pre post, href = pre ++ "ai-".toList ++ post) ∨
      (∃ pre post, href = pre ++ "-ai".toList ++ post ∧
        (post = [] ∨ ∃ c rest, post = c :: rest ∧ isWordChar c = false))) ∧
    aiPattern.test href = aiPatternTwo.test href ∧
    usaTodayStep fetchTime articles
        { a with href := some "/story/tech/2024/05/01/new-ai-chip".toList } =
      (if truthy (trim a.text) then
        articles ++ [{ title := trim a.text,
                       url := "https://www.usatoday.com/story/tech/2024/05/01/new-ai-chip".toList,
                       source := "USA Today".toList, fetched_at := fetchTime, text := none }]
      else articles) ∧
    techCrunchStep fetchTime articles
        { a with href := some "/story/tech/2024/05/01/new-ai-chip".toList } =
      (if truthy (trim a.text) then
        articles ++ [{ title := trim a.text,
                       url := "https://techcrunch.com/story/tech/2024/05/01/new-ai-chip".toList,
                       source := "TechCrunch".toList, fetched_at := fetchTime, text := none }]
      else articles) ∧
    usaTodayStep fetchTime articles
        { a with href := some "/story/tech/sailing-regatta".toList } = articles ∧
    techCrunchStep fetchTime articles
        { a with href := some "/story/tech/sailing-regatta".toList } = articles := by
  refine ⟨test_aiPattern_iff href, ?_, ?_, ?_, ?_, ?_⟩
  · rw [Bool.eq_iff_iff, test_aiPattern_iff, test_aiPatternTwo_iff]
  · simp only [usaTodayStep, aiHref_chip, if_true]
    rfl
  · have hc : includes "/story/tech/2024/05/01/new-ai-chip".toList "chatgpt".toList = false := by
      decide
    simp only [techCrunchStep, aiHref_chip, if_true, hc, Bool.not_false, Bool.and_true]
    rfl
  · simp only [usaTodayStep, aiHref_sailing]
    rfl
  · simp only [techCrunchStep, aiHref_sailing]
    rfl

/-! ## The link loops as filters -/

theorem foldl_push (keep : Anchor → Bool) (stub : Anchor → Article)
    (step : List Article → Anchor → List Article)
    (hstep : ∀ acc a, step acc a = if keep a then acc ++ [stub a] else acc)
    (l : List Anchor) (acc : List Article) :
    l.foldl step acc = acc ++ (l.filter keep).map stub := by
  induction l generalizing acc with
  | nil => simp
  | cons a more ih =>
    rw [List.foldl_cons, ih, hstep]
    by_cases h : keep a = true
    · simp [h]
    · simp [h]

theorem bbcStep_eq (fetchTime : Str) (acc : List Article) (a : Anchor) :
    bbcStep fetchTime acc a = if bbcPushes a then acc ++ [bbcStub fetchTime a] else acc := by
  unfold bbcStep bbcPushes bbcStub
  cases h : a.href with
  | none => simp
  | some u => simp

theorem includes_nil_news : includes [] "/news/".toList = false := by decide

theorem bbcLinks_eq (fetchTime : Str) (doc : Document) :
    bbcLinks fetchTime doc = (doc.anchors.filter bbcKeeps).map (bbcStub fetchTime) := by
  unfold bbcLinks bbcSelect
  rw [foldl_push bbcPushes (bbcStub fetchTime) _ (bbcStep_eq fetchTime), List.nil_append,
    List.filter_filter]
  congr 1
  apply List.filter_congr
  intro a _
  unfold bbcPushes bbcKeeps
  cases h : a.href with
  | none => simp
  | some u =>
    cases u with
    | nil =>
      simp only [includes_nil_news]
      simp [truthy]
    | cons c cs =>
      simp only [truthy, List.isEmpty_cons, Bool.not_false, Bool.and_true]
      cases includes (c :: cs) "/news/".toList <;> cases truthy (trim a.h2Text) <;>
        cases includes (c :: cs) "/reel/video/".toList <;> simp [truthy]

/-- C8. For every BBC listing document the stubs of the link loop are exactly the
anchors with href containing `/news/`, non-empty trimmed `h2` text and no
`/reel/video/` in the href, in document order; hence no stub comes from an anchor
whose href contains `/reel/video/`.  On the listing with the anchors
(`/news/articles/abc`, `AI breakthrough`) and (`/reel/video/xyz`, `AI video`) the
loop yields the one stub titled `AI breakthrough` with url
`https://www.bbc.com/news/articles/abc`. -/
theorem bbcLinks_exact (fetchTime : Str) (doc : Document) :
    bbcLinks fetchTime doc = (doc.anchors.filter bbcKeeps).map (bbcStub fetchTime) ∧
    (∀ a h, a.href = some h → includes h "/reel/video/".toList = true →
      bbcKeeps a = false ∧ ∀ acc, bbcStep fetchTime acc a = acc) ∧
    bbcLinks fetchTime bbcScenario =
      [ { title := "AI breakthrough".toList,
          url := "https://www.bbc.com/news/articles/abc".toList,
          source := "BBC".toList, fetched_at := fetchTime, text := none } ] := by
  refine ⟨bbcLinks_eq fetchTime doc, ?_, rfl⟩
  intro a h ha hreel
  constructor
  · simp only [bbcKeeps, ha, hreel, Bool.not_true, Bool.and_false]
  · intro acc
    simp only [bbcStep, ha, hreel, Bool.not_true, Bool.and_false]
    rfl

/-- The scenario of C8 run through `scrapeBBC`: every page is the listing. -/
theorem bbcLinks_exact_scenario :
    bbcLinks "2024-05-01T00:00:00.000Z".toList bbcScenario =
        (bbcScenario.anchors.filter bbcKeeps).map (bbcStub "2024-05-01T00:00:00.000Z".toList) ∧
    scrapeBBC { fetch := fun _ => some bbcScenario, now := fun _ => "2024-05-01T00:00:00.000Z".toList } =
      .ok [ { title := "AI breakthrough".toList,
              url := "https://www.bbc.com/news/articles/abc".toList,
              source := "BBC".toList, fetched_at := "2024-05-01T00:00:00.000Z".toList,
              text := some [] } ] :=
  ⟨(bbcLinks_exact _ bbcScenario).1, by rfl⟩

theorem aiHref_none : aiHref none = false := rfl

theorem usaTodayStep_eq (fetchTime : Str) (acc : List Article) (a : Anchor) :
    usaTodayStep fetchTime acc a =
      if usaTodayKeeps a then acc ++ [usaTodayStub fetchTime a] else acc := by
  unfold usaTodayStep usaTodayKeeps usaTodayStub
  cases h : a.href with
  | none => simp [aiHref_none]
  | some u =>
    by_cases h1 : aiHref (some u) = true <;> by_cases h2 : truthy (trim a.text) = true <;>
      simp [h1, h2]

theorem usaTodayLinks_eq (fetchTime : Str) (doc : Document) :
    usaTodayLinks fetchTime doc =
      (doc.anchors.filter usaTodayKeeps).map (usaTodayStub fetchTime) := by
  unfold usaTodayLinks
  rw [foldl_push usaTodayKeeps (usaTodayStub fetchTime) _ (usaTodayStep_eq fetchTime),
    List.nil_append]

theorem techCrunchStep_eq (fetchTime : Str) (acc : List Article) (a : Anchor) :
    techCrunchStep fetchTime acc a =
      if techCrunchKeeps a then acc ++ [techCrunchStub fetchTime a] else acc := by
  unfold techCrunchStep techCrunchKeeps techCrunchStub hrefIncludes
  cases h : a.href with
  | none => simp [aiHref_none]
  | some u =>
    by_cases h1 : aiHref (some u) = true <;> by_cases h2 : truthy (trim a.text) = true <;>
      by_cases h3 : includes u "chatgpt".toList = true <;> simp [h1, h2, h3]

theorem techCrunchLinks_eq (fetchTime : Str) (doc : Document) :
    techCrunchLinks fetchTime doc =
      (doc.anchors.filter techCrunchKeeps).map (techCrunchStub fetchTime) := by
  unfold techCrunchLinks
  rw [foldl_push techCrunchKeeps (techCrunchStub fetchTime) _ (techCrunchStep_eq fetchTime),
    List.nil_append]

theorem guardianTitle_of_selects (a : Anchor) (title : Str) (h : guardianSelects a = true) :
    guardianTitle a.ariaLabel title = a.ariaLabel.getD [] := by
  unfold guardianSelects at h
  unfold guardianTitle
  cases hl : a.ariaLabel with
  | none => simp [hl] at h
  | some l =>
    rw [hl] at h
    simp only [Bool.and_eq_true] at h
    simp [h.1]

theorem guardianStep_eq (fetchTime : Str) (acc : List Article) (a : Anchor) :
    guardianStep fetchTime acc a =
      if guardianThrows a then .error .typeError
      else if guardianSelects a then .ok (acc ++ [guardianStub fetchTime a])
      else .ok acc := by
  unfold guardianStep guardianThrows guardianStub
  cases hs : guardianSelects a with
  | false => simp
  | true =>
    cases hh : a.href with
    | none => simp
    | some u => simp [guardianTitle_of_selects a _ hs]

theorem eachM_guardianStep (fetchTime : Str) (l : List Anchor) (acc : List Article) :
    eachM (guardianStep fetchTime) l acc =
      if l.any guardianThrows then .error .typeError
      else .ok (acc ++ (l.filter guardianSelects).map (guardianStub fetchTime)) := by
  induction l generalizing acc with
  | nil => simp [eachM]
  | cons a more ih =>
    rw [eachM, guardianStep_eq]
    by_cases ht : guardianThrows a = true
    · simp [ht]
    · by_cases hs : guardianSelects a = true
      · simp [ht, hs, ih]
      · simp [ht, hs, ih]

theorem guardianLinks_eq (fetchTime : Str) (doc : Document) :
    guardianLinks fetchTime doc =
      if doc.anchors.any guardianThrows then .error .typeError
      else .ok ((doc.anchors.filter guardianSelects).map (guardianStub fetchTime)) := by
  unfold guardianLinks
  rw [eachM_guardianStep, List.nil_append]

/-! ## The text loop -/

theorem filled_title (fetch : Str → Option Document) (paragraphs : Document → List Str)
    (a : Article) : (filled fetch paragraphs a).title = a.title := by
  unfold filled; cases fetch a.url <;> rfl

theorem filled_url (fetch : Str → Option Document) (paragraphs : Document → List Str)
    (a : Article) : (filled fetch paragraphs a).url = a.url := by
  unfold filled; cases fetch a.url <;> rfl

theorem filled_source (fetch : Str → Option Document) (paragraphs : Document → List Str)
    (a : Article) : (filled fetch paragraphs a).source = a.source := by
  unfold filled; cases fetch a.url <;> rfl

theorem fillText_eq (fetch : Str → Option Document) (paragraphs : Document → List Str)
    (l : List Article) :
    fillText fetch paragraphs l =
      match l.find? (fun a => (fetch a.url).isNone) with
      | some a => .error (.fetchError a.url)
      | none => .ok (l.map (filled fetch paragraphs)) := by
  induction l with
  | nil => rfl
  | cons a more ih =>
    rw [fillText, List.find?_cons]
    cases hf : fetch a.url with
    | none => simp
    | some doc =>
      simp only [Option.isNone_some]
      rw [ih]
      cases more.find? (fun a => (fetch a.url).isNone) with
      | some b => rfl
      | none => simp [filled, hf]

theorem fillText_ok_iff (fetch : Str → Option Document) (paragraphs : Document → List Str)
    (l : List Article) :
    (∃ r, fillText fetch paragraphs l = .ok r) ↔ ∀ a ∈ l, fetch a.url ≠ none := by
  rw [fillText_eq]
  cases hf : l.find? (fun a => (fetch a.url).isNone) with
  | some b =>
    have hb := List.find?_some hf
    have hmem := List.mem_of_find?_eq_some hf
    simp only [false_iff, reduceCtorEq, exists_false]
    intro hall
    exact hall b hmem (by simpa using hb)
  | none =>
    rw [List.find?_eq_none] at hf
    simp only [Except.ok.injEq, exists_eq', true_iff]
    intro a ha
    simpa using hf a ha

theorem fillText_ok (fetch : Str → Option Document) (paragraphs : Document → List Str)
    (l r : List Article) (h : fillText fetch paragraphs l = .ok r) :
    r = l.map (filled fetch paragraphs) := by
  rw [fillText_eq] at h
  cases hf : l.find? (fun a => (fetch a.url).isNone) with
  | some b => rw [hf] at h; cases h
  | none => rw [hf] at h; cases h; rfl

/-! ## The four sources side by side -/

theorem links_ok (s : Source) (t : Str) (doc : Document) (l : List Article)
    (h : s.links t doc = .ok l) :
    l = (doc.anchors.filter s.keeps).map (s.stub t) := by
  cases s with
  | bbc =>
    simp only [Source.links, Except.ok.injEq] at h
    rw [← h]; exact bbcLinks_eq t doc
  | guardian =>
    simp only [Source.links, guardianLinks_eq] at h
    split at h
    · cases h
    · simp only [Except.ok.injEq] at h
      rw [← h]; rfl
  | usaToday =>
    simp only [Source.links, Except.ok.injEq] at h
    rw [← h]; exact usaTodayLinks_eq t doc
  | techCrunch =>
    simp only [Source.links, Except.ok.injEq] at h
    rw [← h]; exact techCrunchLinks_eq t doc

/-- Every scraper is its listing fetch, its link loop, its text loop and, for
TechCrunch, the dedup step. -/
theorem scrape_eq (s : Source) (w : World) :
    s.scrape w =
      match w.fetch s.listing with
      | none => .error (.fetchError s.listing)
      | some doc =>
        match s.links (w.now s.listing) doc with
        | .error e => .error e
        | .ok stubs =>
          match fillText w.fetch s.paragraphs stubs with
          | .error e => .error e
          | .ok articles => .ok (s.finish articles) := by
  cases s with
  | bbc =>
    simp only [Source.scrape, scrapeBBC, Source.listing, Source.links, Source.paragraphs,
      Source.finish]
    cases w.fetch bbcListing with
    | none => rfl
    | some doc =>
      simp only
      cases fillText w.fetch Document.textBlock (bbcLinks (w.now bbcListing) doc) <;> rfl
  | guardian =>
    simp only [Source.scrape, scrapeGuardian, Source.listing, Source.links, Source.paragraphs,
      Source.finish]
    cases w.fetch guardianListing with
    | none => rfl
    | some doc =>
      simp only
      cases guardianLinks (w.now guardianListing) doc with
      | error e => rfl
      | ok stubs =>
        simp only
        cases fillText w.fetch Document.articleBody stubs <;> rfl
  | usaToday =>
    simp only [Source.scrape, scrapeUSAToday, Source.listing, Source.links, Source.paragraphs,
      Source.finish]
    cases w.fetch usaTodayListing with
    | none => rfl
    | some doc =>
      simp only
      cases fillText w.fetch Document.gntArB (usaTodayLinks (w.now usaTodayListing) doc) <;> rfl
  | techCrunch =>
    simp only [Source.scrape, scrapeTechCrunch, Source.listing, Source.links,
      Source.paragraphs, Source.finish]

theorem finish_subset (s : Source) (l : List Article) : ∀ a ∈ s.finish l, a ∈ l := by
  intro a ha
  cases s with
  | techCrunch => exact (deduped_uniqueArticles l).sublist.subset ha
  | bbc => exact ha
  | guardian => exact ha
  | usaToday => exact ha

/-- Where a returned article comes from: an anchor of the listing page that the
link loop keeps; the article is the anchor's stub after the text loop. -/
theorem scrape_provenance (s : Source) (w : World) (r : List Article)
    (h : s.scrape w = .ok r) (art : Article) (hart : art ∈ r) :
    ∃ doc, w.fetch s.listing = some doc ∧ ∃ a ∈ doc.anchors, s.keeps a = true ∧
      art = filled w.fetch s.paragraphs (s.stub (w.now s.listing) a) := by
  rw [scrape_eq] at h
  cases hf : w.fetch s.listing with
  | none => rw [hf] at h; cases h
  | some doc =>
    rw [hf] at h
    simp only at h
    refine ⟨doc, rfl, ?_⟩
    cases hl : s.links (w.now s.listing) doc with
    | error e => rw [hl] at h; cases h
    | ok stubs =>
      rw [hl] at h
      simp only at h
      cases ht : fillText w.fetch s.paragraphs stubs with
      | error e => rw [ht] at h; cases h
      | ok articles =>
        rw [ht] at h
        simp only [Except.ok.injEq] at h
        subst h
        have hmem := finish_subset s articles art hart
        rw [fillText_ok _ _ _ _ ht, links_ok s _ _ _ hl] at hmem
        simp only [List.mem_map, List.mem_filter] at hmem
        obtain ⟨stub, ⟨a, ⟨ha, hk⟩, rfl⟩, rfl⟩ := hmem
        exact ⟨a, ha, hk, rfl⟩

theorem mem_titleFilter (l : List Article) (a : Article) (h : a ∈ titleFilter l) : a ∈ l :=
  (List.mem_filter.mp h).1

theorem route_eq (s : Source) (w : World) :
    ∃ message, s.route w = sourceHandler message (s.scrape w) := by
  cases s
  · exact ⟨_, rfl⟩
  · exact ⟨_, rfl⟩
  · exact ⟨_, rfl⟩
  · exact ⟨_, rfl⟩

theorem route_json (s : Source) (w : World) (body : List Article)
    (h : s.route w = .json body) :
    ∃ r, s.scrape w = .ok r ∧ body = titleFilter r := by
  obtain ⟨message, hm⟩ := route_eq s w
  rw [hm] at h
  unfold sourceHandler at h
  cases hr : s.scrape w with
  | error e => rw [hr] at h; cases h
  | ok r =>
    rw [hr] at h
    simp only [Response.json.injEq] at h
    exact ⟨r, rfl, h.symm⟩

theorem newsHandler_json (rb rg ru rt : Except Failure (List Article)) (body : List Article)
    (h : newsHandler rb rg ru rt = .json body) :
    ∃ b g u t, rb = .ok b ∧ rg = .ok g ∧ ru = .ok u ∧ rt = .ok t ∧
      body = titleFilter (b ++ g ++ u ++ t) := by
  cases rb with
  | error e => simp [newsHandler] at h
  | ok b =>
    cases rg with
    | error e => simp [newsHandler] at h
    | ok g =>
      cases ru with
      | error e => simp [newsHandler] at h
      | ok u =>
        cases rt with
        | error e => simp [newsHandler] at h
        | ok t =>
          simp only [newsHandler, Response.json.injEq] at h
          exact ⟨b, g, u, t, rfl, rfl, rfl, rfl, h.symm⟩

theorem newsRoute_json (w : World) (body : List Article) (h : newsRoute w = .json body) :
    ∃ b g u t, scrapeBBC w = .ok b ∧ scrapeGuardian w = .ok g ∧ scrapeUSAToday w = .ok u ∧
      scrapeTechCrunch w = .ok t ∧ body = titleFilter (b ++ g ++ u ++ t) :=
  newsHandler_json _ _ _ _ body h

/-- Every article in the body of a route comes from some scraper's result. -/
theorem body_provenance (w : World) (body : List Article)
    (h : (∃ s : Source, s.route w = .json body) ∨ newsRoute w = .json body)
    (art : Article) (hart : art ∈ body) :
    ∃ (s : Source) (r : List Article), s.scrape w = .ok r ∧ art ∈ r := by
  rcases h with ⟨s, hs⟩ | hn
  · obtain ⟨r, hr, rfl⟩ := route_json s w body hs
    exact ⟨s, r, hr, mem_titleFilter _ _ hart⟩
  · obtain ⟨b, g, u, t, hb, hg, hu, ht, rfl⟩ := newsRoute_json w body hn
    have hmem := mem_titleFilter _ _ hart
    simp only [List.mem_append] at hmem
    rcases hmem with ((hm | hm) | hm) | hm
    · exact ⟨.bbc, b, hb, hm⟩
    · exact ⟨.guardian, g, hg, hm⟩
    · exact ⟨.usaToday, u, hu, hm⟩
    · exact ⟨.techCrunch, t, ht, hm⟩

/-! ## Titles -/

theorem isPrefixOf_iff_append (t s : Str) :
    t.isPrefixOf s = true ↔ ∃ post, s = t ++ post := by
  induction t generalizing s with
  | nil => simp
  | cons c cs ih =>
    cases s with
    | nil => simp
    | cons x xs =>
      simp only [List.isPrefixOf_cons₂, Bool.and_eq_true, beq_iff_eq, ih, List.cons_append,
        List.cons.injEq]
      constructor
      · rintro ⟨rfl, post, rfl⟩
        exact ⟨post, rfl, rfl⟩
      · rintro ⟨post, rfl, rfl⟩
        exact ⟨rfl, post, rfl⟩

theorem includes_iff (s t : Str) :
    includes s t = true ↔ ∃ pre post, s = pre ++ t ++ post := by
  induction s with
  | nil =>
    unfold includes
    simp only [Bool.or_false, isPrefixOf_iff_append]
    constructor
    · rintro ⟨post, h⟩
      exact ⟨[], post, h⟩
    · rintro ⟨pre, post, h⟩
      have h' := h.symm
      simp only [List.append_eq_nil] at h'
      exact ⟨[], by simp [h'.1.2]⟩
  | cons x xs ih =>
    unfold includes
    simp only [Bool.or_eq_true, isPrefixOf_iff_append, ih]
    constructor
    · rintro (⟨post, h⟩ | ⟨pre, post, h⟩)
      · exact ⟨[], post, h⟩
      · exact ⟨x :: pre, post, by rw [h]; rfl⟩
    · rintro ⟨pre, post, h⟩
      cases pre with
      | nil => exact Or.inl ⟨post, h⟩
      | cons y ys =>
        simp only [List.cons_append, List.cons.injEq] at h
        exact Or.inr ⟨ys, post, h.2⟩

theorem mem_of_includes (s t : Str) (h : includes s t = true) (c : Char) (hc : c ∈ t) :
    c ∈ s := by
  obtain ⟨pre, post, rfl⟩ := (includes_iff s t).mp h
  simp [hc]

theorem blank_false_of_mem (s : Str) (c : Char) (hc : c ∈ s) (hw : isWhiteSpace c = false) :
    blank s = false := by
  unfold blank
  rw [List.all_eq_false]
  exact ⟨c, hc, by simp [hw]⟩

theorem trim_not_blank (s : Str) (h : truthy (trim s) = true) : blank (trim s) = false := by
  unfold trim at h ⊢
  have hne : List.dropWhile isWhiteSpace (List.dropWhile isWhiteSpace s).reverse ≠ [] := by
    intro hnil
    rw [hnil] at h
    simp [truthy] at h
  have hhead := List.head_dropWhile_not isWhiteSpace (List.dropWhile isWhiteSpace s).reverse hne
  refine blank_false_of_mem _ _ ?_ hhead
  rw [List.mem_reverse]
  exact List.head_mem hne

theorem not_whiteSpace_of_lower_a (c : Char) (h : 'a' ∈ toLowerChar c) :
    isWhiteSpace c = false := by
  unfold toLowerChar at h
  have ha : 'a'.toNat = 97 := rfl
  have hA : 'A'.toNat = 65 := rfl
  have hZ : 'Z'.toNat = 90 := rfl
  rw [hA, hZ] at h
  split at h
  · rename_i hr
    simp only [isWhiteSpace, Bool.or_eq_false_iff, beq_eq_false_iff_ne, ne_eq,
      Bool.and_eq_false_imp, decide_eq_true_eq, decide_eq_false_iff_not, Nat.not_le]
    omega
  · split at h
    · rename_i hr
      simp only [isWhiteSpace, Bool.or_eq_false_iff, beq_eq_false_iff_ne, ne_eq,
        Bool.and_eq_false_imp, decide_eq_true_eq, decide_eq_false_iff_not, Nat.not_le]
      omega
    · simp only [List.mem_singleton] at h
      rw [← h]
      decide

theorem selects_not_blank (a : Anchor) (h : guardianSelects a = true) :
    blank (a.ariaLabel.getD []) = false := by
  unfold guardianSelects at h
  cases hl : a.ariaLabel with
  | none => simp [hl] at h
  | some l =>
    rw [hl] at h
    simp only [Bool.and_eq_true] at h
    have ha : 'a' ∈ toLowerCase l := mem_of_includes _ _ h.2 'a' (by decide)
    unfold toLowerCase at ha
    rw [List.mem_flatten] at ha
    obtain ⟨cs, hcs, hacs⟩ := ha
    obtain ⟨c, hc, rfl⟩ := List.mem_map.mp hcs
    exact blank_false_of_mem _ c hc (not_whiteSpace_of_lower_a c hacs)

theorem keeps_title_not_blank (s : Source) (t : Str) (a : Anchor) (h : s.keeps a = true) :
    blank (s.stub t a).title = false := by
  cases s with
  | bbc =>
    simp only [Source.keeps, bbcKeeps] at h
    simp only [Source.stub, bbcStub]
    cases hh : a.href with
    | none => simp [hh] at h
    | some u =>
      rw [hh] at h
      simp only [Bool.and_eq_true] at h
      exact trim_not_blank _ h.1.2
  | guardian => exact selects_not_blank a h
  | usaToday =>
    simp only [Source.keeps, usaTodayKeeps, Bool.and_eq_true] at h
    exact trim_not_blank _ h.2
  | techCrunch =>
    simp only [Source.keeps, techCrunchKeeps, Bool.and_eq_true] at h
    exact trim_not_blank _ h.1.2

/-- C2. In the body of each of the routes `/bbc`, `/guardian`, `/usatoday`,
`/techcrunch` and `/news`, whatever the pages fetched, every article has a title
that is neither empty nor all whitespace. -/
theorem route_titles_not_blank (w : World) (body : List Article)
    (h : bbcRoute w = .json body ∨ guardianRoute w = .json body ∨
      usaTodayRoute w = .json body ∨ techCrunchRoute w = .json body ∨
      newsRoute w = .json body) :
    ∀ article ∈ body, truthy article.title = true ∧ blank article.title = false := by
  intro art hart
  have hb : (∃ s : Source, s.route w = .json body) ∨ newsRoute w = .json body := by
    rcases h with h | h | h | h | h
    · exact Or.inl ⟨.bbc, h⟩
    · exact Or.inl ⟨.guardian, h⟩
    · exact Or.inl ⟨.usaToday, h⟩
    · exact Or.inl ⟨.techCrunch, h⟩
    · exact Or.inr h
  obtain ⟨s, r, hr, hmem⟩ := body_provenance w body hb art hart
  obtain ⟨doc, _, a, _, hk, rfl⟩ := scrape_provenance s w r hr art hmem
  rw [filled_title]
  have hnb := keeps_title_not_blank s (w.now s.listing) a hk
  refine ⟨?_, hnb⟩
  cases ht : (s.stub (w.now s.listing) a).title with
  | nil => rw [ht] at hnb; simp [blank] at hnb
  | cons c cs => rfl

/-- The claim C2 in `paddedWorld`: the untrimmed aria-label is the title in the body
of `/guardian`, and it is neither empty nor all whitespace. -/
theorem route_titles_not_blank_guardian :
    guardianRoute paddedWorld = .json [paddedArticle] ∧
    (truthy paddedArticle.title = true ∧ blank paddedArticle.title = false) :=
  ⟨by rfl, route_titles_not_blank paddedWorld [paddedArticle] (Or.inr (Or.inl (by rfl)))
    paddedArticle (List.mem_singleton.mpr rfl)⟩

/-! ## Urls -/

theorem stub_url_eq (s : Source) (t : Str) (a : Anchor) :
    (s.stub t a).url = fullUrl s.origin (a.href.getD []) := by
  cases s <;> rfl

theorem origin_append_absolute (s : Source) (href : Str) :
    startsWith (s.origin ++ href) "http".toList = true ∧
    isAbsolute (s.origin ++ href) = true := by
  cases s <;> exact ⟨rfl, rfl⟩

theorem startsWith_http_of_absolute (url : Str) (h : isAbsolute url = true) :
    startsWith url "http".toList = true := by
  unfold isAbsolute at h
  simp only [Bool.or_eq_true, startsWith, isPrefixOf_iff_append] at h ⊢
  rcases h with ⟨post, rfl⟩ | ⟨post, rfl⟩
  · exact ⟨"://".toList ++ post, rfl⟩
  · exact ⟨"s://".toList ++ post, rfl⟩

/-- The normalisation, for each origin: the href itself when it starts with
`http`, the origin followed by the href otherwise.  The result always starts with
`http`, and is absolute unless the href starts with `http` without being absolute. -/
theorem fullUrl_spec (s : Source) (href : Str) :
    fullUrl s.origin href =
      (if startsWith href "http".toList = true then href else s.origin ++ href) ∧
    startsWith (fullUrl s.origin href) "http".toList = true ∧
    (startsWith href "http".toList = false ∨ isAbsolute href = true →
      isAbsolute (fullUrl s.origin href) = true) := by
  refine ⟨rfl, ?_, ?_⟩
  · unfold fullUrl
    by_cases h : startsWith href "http".toList = true
    · rw [if_pos h]; exact h
    · rw [if_neg h]; exact (origin_append_absolute s href).1
  · intro hh
    unfold fullUrl
    by_cases h : startsWith href "http".toList = true
    · rw [if_pos h]
      rcases hh with hh | hh
      · rw [h] at hh; cases hh
      · exact hh
    · rw [if_neg h]; exact (origin_append_absolute s href).2

theorem keeps_href (s : Source) (t : Str) (doc : Document) (l : List Article)
    (h : s.links t doc = .ok l) (a : Anchor) (ha : a ∈ doc.anchors) (hk : s.keeps a = true) :
    ∃ href, a.href = some href := by
  cases hh : a.href with
  | some href => exact ⟨href, rfl⟩
  | none =>
    exfalso
    cases s with
    | bbc => simp [Source.keeps, bbcKeeps, hh] at hk
    | usaToday => simp [Source.keeps, usaTodayKeeps, hh, aiHref_none] at hk
    | techCrunch => simp [Source.keeps, techCrunchKeeps, hh, aiHref_none] at hk
    | guardian =>
      simp only [Source.links, guardianLinks_eq] at h
      have hany : doc.anchors.any guardianThrows = true := by
        rw [List.any_eq_true]
        refine ⟨a, ha, ?_⟩
        simp only [Source.keeps] at hk
        simp [guardianThrows, hk, hh]
      rw [hany] at h
      simp at h

/-- C3, as stated, fails: the relative href `httpd-ai-tips.html` is selected by the
link loop of `scrapeUSAToday`, starts with `http`, is used unchanged, and the url of
the stub begins with neither `http://` nor `https://`. -/
theorem usaToday_url_not_absolute :
    usaTodayLinks "2024-05-01T00:00:00.000Z".toList httpdListing =
      [ { title := "Tips".toList, url := "httpd-ai-tips.html".toList,
          source := "USA Today".toList, fetched_at := "2024-05-01T00:00:00.000Z".toList,
          text := none } ] ∧
    startsWith "httpd-ai-tips.html".toList "http://".toList = false ∧
    startsWith "httpd-ai-tips.html".toList "https://".toList = false ∧
    ¬ ∀ article ∈ usaTodayLinks "2024-05-01T00:00:00.000Z".toList httpdListing,
        isAbsolute article.url = true := by
  refine ⟨by rfl, by rfl, by rfl, ?_⟩
  intro h
  have := h _ (List.mem_singleton.mpr rfl)
  revert this
  decide

/-- C3, amended. For every source, the stubs of the link loop are the stubs of the
anchors that the loop keeps, one for each kept anchor and in document order, and
the url of the stub of a kept anchor is built from the href of that very anchor: the
href unchanged when it starts with `http`, the source's origin followed by the href
otherwise.  This url always starts with `http`; it begins with `http://` or
`https://` whenever the href does not start with `http` or itself begins with
`http://` or `https://`. -/
theorem stub_url_normalised (s : Source) (t : Str) (doc : Document) (stubs : List Article)
    (h : s.links t doc = .ok stubs) :
    stubs = (doc.anchors.filter s.keeps).map (s.stub t) ∧
    (∀ a ∈ doc.anchors, s.keeps a = true →
      ∃ href, a.href = some href ∧
        (s.stub t a).url =
          (if startsWith href "http".toList = true then href else s.origin ++ href) ∧
        startsWith (s.stub t a).url "http".toList = true ∧
        (startsWith href "http".toList = false ∨ isAbsolute href = true →
          isAbsolute (s.stub t a).url = true)) ∧
    (∀ article ∈ stubs, ∃ a ∈ doc.anchors, s.keeps a = true ∧ article = s.stub t a) := by
  have hl := links_ok s t doc stubs h
  refine ⟨hl, ?_, ?_⟩
  · intro a ha hk
    obtain ⟨href, hh⟩ := keeps_href s t doc stubs h a ha hk
    refine ⟨href, hh, ?_⟩
    rw [stub_url_eq, hh]
    exact fullUrl_spec s href
  · intro article hart
    rw [hl] at hart
    simp only [List.mem_map, List.mem_filter] at hart
    obtain ⟨a, ⟨ha, hk⟩, rfl⟩ := hart
    exact ⟨a, ha, hk, rfl⟩

/-- The amended C3 on the BBC scenario: the stubs are those of the kept anchors, and
the relative href of the news anchor gets the origin. -/
theorem stub_url_normalised_bbc :
    Source.links .bbc [] bbcScenario = .ok [abcStub] ∧
    [abcStub] = (bbcScenario.anchors.filter (Source.keeps .bbc)).map (Source.stub .bbc []) ∧
    (∃ href, newsAnchor.href = some href ∧
      (Source.stub .bbc [] newsAnchor).url =
        (if startsWith href "http".toList = true then href
         else Source.origin .bbc ++ href) ∧
      startsWith (Source.stub .bbc [] newsAnchor).url "http".toList = true ∧
      (startsWith href "http".toList = false ∨ isAbsolute href = true →
        isAbsolute (Source.stub .bbc [] newsAnchor).url = true)) ∧
    (Source.stub .bbc [] newsAnchor).url = "https://www.bbc.com/news/articles/abc".toList :=
  ⟨rfl, (stub_url_normalised .bbc [] bbcScenario [abcStub] rfl).1,
   (stub_url_normalised .bbc [] bbcScenario [abcStub] rfl).2.1 newsAnchor
     (List.mem_cons_self _ _) (by rfl),
   by rfl⟩

/-! ## The field `source` -/

theorem stub_source (s : Source) (t : Str) (a : Anchor) : (s.stub t a).source = s.label := by
  cases s <;> rfl

theorem scrape_source (s : Source) (w : World) (r : List Article) (h : s.scrape w = .ok r) :
    ∀ article ∈ r, article.source = s.label := by
  intro article hart
  obtain ⟨doc, _, a, _, _, rfl⟩ := scrape_provenance s w r h article hart
  rw [filled_source, stub_source]

/-- C10, as stated, fails: the article that `scrapeUSAToday` returns for the listing
`chipListing` carries the source value `USA Today`, with a space, which is not the
value `USAToday` and is none of `BBC`, `Guardian`, `USAToday`, `TechCrunch`. -/
theorem usaToday_source_has_space :
    scrapeUSAToday chipWorld = .ok [chipArticle] ∧
    chipArticle.source = "USA Today".toList ∧
    chipArticle.source ≠ "USAToday".toList ∧
    chipArticle.source ∉
      ["BBC".toList, "Guardian".toList, "USAToday".toList, "TechCrunch".toList] := by
  refine ⟨by rfl, by rfl, by decide, by decide⟩

/-- C10, amended. Every article returned by a scraper carries the source value that
its scraper writes: `BBC` for `scrapeBBC`, `Guardian` for `scrapeGuardian`,
`USA Today` for `scrapeUSAToday`, `TechCrunch` for `scrapeTechCrunch`; and every
article in the body of a route carries one of these four values. -/
theorem source_is_scraper_label (w : World) :
    (∀ r, scrapeBBC w = .ok r → ∀ article ∈ r, article.source = "BBC".toList) ∧
    (∀ r, scrapeGuardian w = .ok r → ∀ article ∈ r, article.source = "Guardian".toList) ∧
    (∀ r, scrapeUSAToday w = .ok r → ∀ article ∈ r, article.source = "USA Today".toList) ∧
    (∀ r, scrapeTechCrunch w = .ok r →
      ∀ article ∈ r, article.source = "TechCrunch".toList) ∧
    (∀ body, (bbcRoute w = .json body ∨ guardianRoute w = .json body ∨
        usaTodayRoute w = .json body ∨ techCrunchRoute w = .json body ∨
        newsRoute w = .json body) →
      ∀ article ∈ body, article.source ∈
        ["BBC".toList, "Guardian".toList, "USA Today".toList, "TechCrunch".toList]) := by
  refine ⟨fun r h => scrape_source .bbc w r h, fun r h => scrape_source .guardian w r h,
    fun r h => scrape_source .usaToday w r h, fun r h => scrape_source .techCrunch w r h, ?_⟩
  intro body h article hart
  have hb : (∃ s : Source, s.route w = .json body) ∨ newsRoute w = .json body := by
    rcases h with h | h | h | h | h
    · exact Or.inl ⟨.bbc, h⟩
    · exact Or.inl ⟨.guardian, h⟩
    · exact Or.inl ⟨.usaToday, h⟩
    · exact Or.inl ⟨.techCrunch, h⟩
    · exact Or.inr h
  obtain ⟨s, r, hr, hmem⟩ := body_provenance w body hb article hart
  rw [scrape_source s w r hr article hmem]
  cases s <;> simp [Source.label]

/-- The amended C10 in `chipWorld`: the article of `/usatoday` carries `USA Today`. -/
theorem source_is_scraper_label_chip :
    usaTodayRoute chipWorld = .json [chipArticle] ∧
    ∀ article ∈ [chipArticle], article.source ∈
      ["BBC".toList, "Guardian".toList, "USA Today".toList, "TechCrunch".toList] :=
  ⟨by rfl, (source_is_scraper_label chipWorld).2.2.2.2 [chipArticle]
    (Or.inr (Or.inr (Or.inl (by rfl))))⟩

/-! ## The link loop of scrapeGuardian -/

theorem includes_nil_ai : includes [] "ai".toList = false := by decide

/-- C6. The link loop of `scrapeGuardian` selects an anchor if and only if the anchor
has an aria-label whose lower-case form contains `ai`; an anchor without aria-label
is not selected, whatever its text, and is passed over.  The stub built from a
selected anchor has the aria-label as its title, so the alternative `title` of
`ariaLabel || title` is never used. -/
theorem guardian_selection (fetchTime : Str) (a : Anchor) (articles : List Article) :
    (guardianSelects a = true ↔
      ∃ label, a.ariaLabel = some label ∧ includes (toLowerCase label) "ai".toList = true) ∧
    (a.ariaLabel = none →
      guardianSelects a = false ∧ guardianStep fetchTime articles a = .ok articles) ∧
    (guardianSelects a = false → guardianStep fetchTime articles a = .ok articles) ∧
    (∀ label href, a.ariaLabel = some label → a.href = some href →
      guardianSelects a = true →
      guardianTitle a.ariaLabel (trim a.text) = label ∧
      guardianStep fetchTime articles a =
        .ok (articles ++ [{ title := label,
                            url := fullUrl "https://www.theguardian.com".toList href,
                            source := "Guardian".toList, fetched_at := fetchTime,
                            text := none }])) ∧
    (∀ doc stubs, guardianLinks fetchTime doc = .ok stubs →
      stubs = (doc.anchors.filter guardianSelects).map fun b =>
        { title := b.ariaLabel.getD [],
          url := fullUrl "https://www.theguardian.com".toList (b.href.getD []),
          source := "Guardian".toList, fetched_at := fetchTime, text := none }) := by
  refine ⟨?_, ?_, ?_, ?_, ?_⟩
  · unfold guardianSelects
    cases hl : a.ariaLabel with
    | none => simp
    | some label =>
      simp only [Bool.and_eq_true, Option.some.injEq, exists_eq_left']
      constructor
      · exact fun h => h.2
      · intro h
        refine ⟨?_, h⟩
        cases label with
        | nil =>
          have : toLowerCase [] = [] := rfl
          rw [this, includes_nil_ai] at h
          cases h
        | cons c cs => rfl
  · intro hn
    have hs : guardianSelects a = false := by simp [guardianSelects, hn]
    exact ⟨hs, by simp [guardianStep, hs]⟩
  · intro hs
    simp [guardianStep, hs]
  · intro label href hl hh hs
    have ht : guardianTitle a.ariaLabel (trim a.text) = label := by
      rw [guardianTitle_of_selects a (trim a.text) hs, hl]
      rfl
    refine ⟨ht, ?_⟩
    simp only [guardianStep, hs, if_true, hh, ht]
  · intro doc stubs h
    exact links_ok .guardian fetchTime doc stubs h

/-- The link loop of C6 on the listing `guardianPadded`: the anchor is selected by
its aria-label and the stub's title is the aria-label, not the text `More`; the
anchor `unlabelled` is passed over. -/
theorem guardian_selection_padded :
    guardianLinks [] guardianPadded =
      .ok [ { title := "  AI law passes ".toList,
              url := "https://www.theguardian.com/technology/2024/may/01/ai-law".toList,
              source := "Guardian".toList, fetched_at := [], text := none } ] ∧
    (guardianSelects unlabelled = false ∧ guardianStep [] [] unlabelled = .ok []) :=
  ⟨by rfl, (guardian_selection [] unlabelled []).2.1 rfl⟩

/-! ## The chatgpt exclusion of scrapeTechCrunch -/

theorem includes_cons (c : Char) (cs t : Str) :
    includes (c :: cs) t = (t.isPrefixOf (c :: cs) || includes cs t) := by
  rw [includes]

theorem includes_origin_chatgpt (href : Str) :
    includes ("https://techcrunch.com".toList ++ href) "chatgpt".toList =
      includes href "chatgpt".toList := by
  simp [includes_cons, List.isPrefixOf_cons₂]

theorem test_nil : aiPattern.test [] = false := by decide

theorem techCrunchKeeps_iff (a : Anchor) :
    techCrunchKeeps a = true ↔
      ∃ href, a.href = some href ∧ aiPattern.test href = true ∧
        includes href "chatgpt".toList = false ∧ truthy (trim a.text) = true := by
  unfold techCrunchKeeps hrefIncludes aiHref
  cases hh : a.href with
  | none => simp
  | some href =>
    simp only [Bool.and_eq_true, Bool.not_eq_true', Option.some.injEq, exists_eq_left']
    constructor
    · rintro ⟨⟨⟨_, h1⟩, h2⟩, h3⟩
      exact ⟨h1, h3, h2⟩
    · rintro ⟨h1, h3, h2⟩
      refine ⟨⟨⟨?_, h1⟩, h2⟩, h3⟩
      cases href with
      | nil => rw [test_nil] at h1; cases h1
      | cons c cs => rfl

theorem techCrunchStub_url_chatgpt (t : Str) (a : Anchor) (h : techCrunchKeeps a = true) :
    includes (techCrunchStub t a).url "chatgpt".toList = false := by
  obtain ⟨href, hh, _, hc, _⟩ := (techCrunchKeeps_iff a).mp h
  simp only [techCrunchStub, hh, Option.getD_some, fullUrl]
  split
  · exact hc
  · rw [includes_origin_chatgpt]; exact hc

/-- C9. The stubs of the link loop of `scrapeTechCrunch` are exactly those of the
anchors whose href matches the AI pattern and does not contain `chatgpt` and whose
trimmed text is non-empty, in document order.  When `scrapeTechCrunch` returns, each
returned article is the stub of such an anchor with its text, and its url does not
contain `chatgpt`; and each such anchor has its url among the returned articles. -/
theorem techCrunch_excludes_chatgpt (w : World) (doc : Document) :
    techCrunchLinks (w.now techCrunchListing) doc =
      (doc.anchors.filter techCrunchKeeps).map (techCrunchStub (w.now techCrunchListing)) ∧
    (∀ a, techCrunchKeeps a = true ↔
      ∃ href, a.href = some href ∧ aiPattern.test href = true ∧
        includes href "chatgpt".toList = false ∧ truthy (trim a.text) = true) ∧
    (∀ r, w.fetch techCrunchListing = some doc → scrapeTechCrunch w = .ok r →
      (∀ article ∈ r, includes article.url "chatgpt".toList = false ∧
        ∃ a ∈ doc.anchors, techCrunchKeeps a = true ∧
          article.title = trim a.text ∧ article.url = (techCrunchStub (w.now techCrunchListing) a).url) ∧
      (∀ a ∈ doc.anchors, techCrunchKeeps a = true →
        ∃ article ∈ r, article.url = (techCrunchStub (w.now techCrunchListing) a).url)) := by
  refine ⟨techCrunchLinks_eq (w.now techCrunchListing) doc, techCrunchKeeps_iff, ?_⟩
  intro r hdoc hr
  constructor
  · intro article hart
    obtain ⟨doc', hdoc', a, ha, hk, rfl⟩ := scrape_provenance .techCrunch w r hr article hart
    have hd : doc' = doc := by
      have : w.fetch techCrunchListing = some doc' := hdoc'
      rw [hdoc] at this
      exact (Option.some.inj this).symm
    subst hd
    rw [filled_url, filled_title]
    exact ⟨techCrunchStub_url_chatgpt (w.now techCrunchListing) a hk, a, ha, hk, rfl, rfl⟩
  · intro a ha hk
    unfold scrapeTechCrunch at hr
    rw [hdoc] at hr
    simp only at hr
    cases hf : fillText w.fetch Document.entryContent (techCrunchLinks (w.now techCrunchListing) doc) with
    | error e => rw [hf] at hr; cases hr
    | ok articles =>
      rw [hf] at hr
      simp only [Except.ok.injEq] at hr
      subst hr
      have hfill := fillText_ok _ _ _ _ hf
      have hmem : (techCrunchStub (w.now techCrunchListing) a).url ∈ articles.map Article.url := by
        rw [hfill, techCrunchLinks_eq]
        simp only [List.map_map, List.mem_map, List.mem_filter, Function.comp]
        exact ⟨a, ⟨ha, hk⟩, filled_url _ _ _⟩
      rw [← (deduped_uniqueArticles articles).urls] at hmem
      obtain ⟨article, hart, hurl⟩ := List.mem_map.mp hmem
      exact ⟨article, hart, hurl⟩

/-- The claim C9 in `techCrunchWorld`: the `chatgpt` link yields nothing, the AI
link yields one article, and the stubs are the filtered anchors. -/
theorem techCrunch_excludes_chatgpt_page :
    scrapeTechCrunch techCrunchWorld =
      .ok [ { title := "Chip".toList,
              url := "https://techcrunch.com/2024/05/01/open-ai-chip/".toList,
              source := "TechCrunch".toList, fetched_at := [],
              text := some "Body.".toList } ] ∧
    techCrunchLinks (techCrunchWorld.now techCrunchListing) techCrunchListingPage =
      (techCrunchListingPage.anchors.filter techCrunchKeeps).map
        (techCrunchStub (techCrunchWorld.now techCrunchListing)) :=
  ⟨by rfl, (techCrunch_excludes_chatgpt techCrunchWorld techCrunchListingPage).1⟩

/-! ## Failure of a scraper -/

/-- When a scraper's promise is rejected: its listing fetch is rejected, or the
fetch of a stub's url is rejected, or, for the Guardian alone, the link loop throws
on a selected anchor that has no href. -/
theorem scrape_fails_iff (s : Source) (w : World) :
    (∃ e, s.scrape w = .error e) ↔
      w.fetch s.listing = none ∨
      ∃ doc, w.fetch s.listing = some doc ∧
        ((s = .guardian ∧ doc.anchors.any guardianThrows = true) ∨
          ∃ stubs, s.links (w.now s.listing) doc = .ok stubs ∧ ∃ stub ∈ stubs, w.fetch stub.url = none) := by
  rw [scrape_eq]
  cases hf : w.fetch s.listing with
  | none => exact ⟨fun _ => Or.inl rfl, fun _ => ⟨_, rfl⟩⟩
  | some doc =>
    simp only
    cases hl : s.links (w.now s.listing) doc with
    | error e =>
      simp only
      refine ⟨fun _ => Or.inr ⟨doc, rfl, Or.inl ?_⟩, fun _ => ⟨e, rfl⟩⟩
      cases s with
      | guardian =>
        refine ⟨rfl, ?_⟩
        simp only [Source.links, guardianLinks_eq] at hl
        by_cases hany : doc.anchors.any guardianThrows = true
        · exact hany
        · rw [if_neg hany] at hl; cases hl
      | bbc => cases hl
      | usaToday => cases hl
      | techCrunch => cases hl
    | ok stubs =>
      simp only
      have hno : ¬ (s = .guardian ∧ doc.anchors.any guardianThrows = true) := by
        rintro ⟨rfl, hany⟩
        simp only [Source.links, guardianLinks_eq, hany, if_true] at hl
        cases hl
      have hok := fillText_ok_iff w.fetch s.paragraphs stubs
      cases ht : fillText w.fetch s.paragraphs stubs with
      | error e =>
        simp only
        refine ⟨fun _ => Or.inr ⟨doc, rfl, Or.inr ⟨stubs, hl, ?_⟩⟩, fun _ => ⟨e, rfl⟩⟩
        by_contra hcon
        have hall : ∀ a ∈ stubs, w.fetch a.url ≠ none := by
          intro a ha hnone
          exact hcon ⟨a, ha, hnone⟩
        obtain ⟨r, hr⟩ := hok.mpr hall
        rw [ht] at hr
        cases hr
      | ok articles =>
        simp only
        constructor
        · rintro ⟨e, he⟩
          cases he
        · rintro (h | ⟨doc', hdoc', h⟩)
          · cases h
          · cases hdoc'
            rcases h with h | ⟨stubs', hstubs', stub, hstub, hnone⟩
            · exact absurd h hno
            · rw [hl] at hstubs'
              cases hstubs'
              exact absurd hnone ((hok.mp ⟨articles, ht⟩) stub hstub)

/-- C4 at the failing input. In `noHrefWorld` no fetch fails, yet `scrapeGuardian` is
rejected: the link loop calls `startsWith` on the missing href of the selected
anchor.  The three scrapers that test the href first return a list there. -/
theorem scrapeGuardian_throws_without_href :
    (∀ url, noHrefWorld.fetch url ≠ none) ∧
    scrapeGuardian noHrefWorld = .error .typeError ∧
    guardianRoute noHrefWorld = .status500 "Error fetching Guardian headlines".toList ∧
    scrapeBBC noHrefWorld = .ok [] ∧
    scrapeUSAToday noHrefWorld = .ok [] ∧
    scrapeTechCrunch noHrefWorld = .ok [] := by
  refine ⟨?_, by rfl, by rfl, by rfl, by rfl, by rfl⟩
  intro url h
  cases h

/-! ## The route /news -/

/-- The handler of `/news` on four settled promises: the filtered concatenation
when all four resolved, the 500 error when one was rejected. -/
theorem newsHandler_cases (rb rg ru rt : Except Failure (List Article)) :
    (∀ b g u t, rb = .ok b → rg = .ok g → ru = .ok u → rt = .ok t →
      newsHandler rb rg ru rt = .json (titleFilter (b ++ g ++ u ++ t))) ∧
    ((∃ e, rb = .error e) ∨ (∃ e, rg = .error e) ∨ (∃ e, ru = .error e) ∨
        (∃ e, rt = .error e) →
      newsHandler rb rg ru rt = .status500 "Error fetching headlines".toList) := by
  refine ⟨?_, ?_⟩
  · rintro b g u t rfl rfl rfl rfl
    rfl
  · intro h
    cases rb with
    | error e => rfl
    | ok b =>
      cases rg with
      | error e => rfl
      | ok g =>
        cases ru with
        | error e => rfl
        | ok u =>
          cases rt with
          | error e => rfl
          | ok t =>
            rcases h with ⟨e, h⟩ | ⟨e, h⟩ | ⟨e, h⟩ | ⟨e, h⟩ <;> cases h

/-- No scraper returns an article whose title is empty or all whitespace. -/
theorem scrape_titles_not_blank (s : Source) (w : World) (r : List Article)
    (h : s.scrape w = .ok r) :
    ∀ a ∈ r, truthy a.title = true ∧ blank a.title = false := by
  intro a hmem
  obtain ⟨doc, _, anchor, _, hk, rfl⟩ := scrape_provenance s w r h a hmem
  rw [filled_title]
  have hnb := keeps_title_not_blank s (w.now s.listing) anchor hk
  refine ⟨?_, hnb⟩
  cases hti : (s.stub (w.now s.listing) anchor).title with
  | nil => rw [hti] at hnb; simp [blank] at hnb
  | cons c cs => rfl

/-- On the truthy titles of a list, the filter of the routes keeps what the test
for a title that is neither empty nor all whitespace keeps. -/
theorem titleFilter_eq_not_blank (l : List Article)
    (h : ∀ a ∈ l, truthy a.title = true → blank a.title = false) :
    titleFilter l = l.filter fun a => !blank a.title := by
  unfold titleFilter
  induction l with
  | nil => rfl
  | cons x xs ih =>
    have ihx := ih (fun a ha => h a (List.mem_cons_of_mem _ ha))
    have hx := h x (List.mem_cons_self _ _)
    cases hb : blank x.title with
    | false =>
      cases ht : truthy x.title with
      | false =>
        exfalso
        cases hti : x.title with
        | nil => rw [hti] at hb; simp [blank] at hb
        | cons c cs => rw [hti] at ht; simp [truthy] at ht
      | true => simp [List.filter_cons, hb, ht, ihx]
    | true =>
      have ht : truthy x.title = false := by
        cases htt : truthy x.title with
        | false => rfl
        | true => rw [hx htt] at hb; cases hb
      simp [List.filter_cons, hb, ht, ihx]

/-- C5. In every world, the route `/news` answers as follows.  When the four scrapers
resolve, the body is the concatenation BBC, Guardian, USAToday, TechCrunch of their
results, in this order and each in its own order, with the articles whose title is
empty or all whitespace removed and nothing else removed; no returned title is of
that kind, so the body is the whole concatenation.  When one of the four scrapers is
rejected, the response is the 500 error with message `Error fetching headlines`, and
holds no article. -/
theorem newsRoute_spec (w : World) :
    (∀ b g u t, scrapeBBC w = .ok b → scrapeGuardian w = .ok g → scrapeUSAToday w = .ok u →
      scrapeTechCrunch w = .ok t →
      newsRoute w = .json ((b ++ g ++ u ++ t).filter fun a => !blank a.title) ∧
      newsRoute w = .json (b ++ g ++ u ++ t)) ∧
    ((∃ e, scrapeBBC w = .error e) ∨ (∃ e, scrapeGuardian w = .error e) ∨
        (∃ e, scrapeUSAToday w = .error e) ∨ (∃ e, scrapeTechCrunch w = .error e) →
      newsRoute w = .status500 "Error fetching headlines".toList) := by
  refine ⟨?_, fun h => (newsHandler_cases _ _ _ _).2 h⟩
  intro b g u t hb hg hu ht
  have hroute : newsRoute w = .json (titleFilter (b ++ g ++ u ++ t)) :=
    (newsHandler_cases _ _ _ _).1 b g u t hb hg hu ht
  have hall : ∀ a ∈ b ++ g ++ u ++ t, truthy a.title = true ∧ blank a.title = false := by
    intro a ha
    simp only [List.mem_append] at ha
    rcases ha with ((hm | hm) | hm) | hm
    · exact scrape_titles_not_blank .bbc w b hb a hm
    · exact scrape_titles_not_blank .guardian w g hg a hm
    · exact scrape_titles_not_blank .usaToday w u hu a hm
    · exact scrape_titles_not_blank .techCrunch w t ht a hm
  constructor
  · rw [hroute, titleFilter_eq_not_blank _ (fun a ha _ => (hall a ha).2)]
  · rw [hroute, titleFilter, List.filter_eq_self.mpr (fun a ha => (hall a ha).1)]

/-- The claim C5 in two worlds: in `chipWorld` the four scrapers resolve and the body
is the USAToday article followed by the TechCrunch article; in `noHrefWorld` the
Guardian scraper is rejected and the response is the 500 error. -/
theorem newsRoute_spec_worlds :
    (newsRoute chipWorld =
        .json (([] ++ [] ++ [chipArticle] ++ [chipTechCrunch]).filter
          fun a => !blank a.title) ∧
      newsRoute chipWorld = .json ([] ++ [] ++ [chipArticle] ++ [chipTechCrunch])) ∧
    newsRoute noHrefWorld = .status500 "Error fetching headlines".toList :=
  ⟨(newsRoute_spec chipWorld).1 [] [] [chipArticle] [chipTechCrunch]
      (by rfl) (by rfl) (by rfl) (by rfl),
   (newsRoute_spec noHrefWorld).2 (Or.inr (Or.inl ⟨.typeError, by rfl⟩))⟩

/-- The dedup step of C1 on a list with a repeated url: the first occurrence stays,
in its place; and `scrapeTechCrunch` on a page that links one url twice. -/
theorem uniqueArticles_dedup_example :
    uniqueArticles [chipFirst, robotFirst, chipAgain, robotFirst] = [chipFirst, robotFirst] ∧
    scrapeTechCrunch techCrunchWorld = .ok [chipFirst] ∧
    ((uniqueArticles [chipFirst, robotFirst, chipAgain, robotFirst]).map Article.url).Nodup :=
  ⟨by decide, by rfl,
   (uniqueArticles_dedup [chipFirst, robotFirst, chipAgain, robotFirst] techCrunchWorld).1⟩

/-- The pattern of C7 on an href that ends in `-ai`: accepted by the first
alternation at the end of the string, and by the pattern of two alternations. -/
theorem aiPattern_accepts_end :
    aiPattern.test "/tag/generative-ai".toList = true ∧
    aiPattern.test "/tag/generative-ai".toList = aiPatternTwo.test "/tag/generative-ai".toList ∧
    aiPattern.test "/tag/generative-aim".toList = false :=
  ⟨by decide, (aiPattern_accepts "/tag/generative-ai".toList [] [] unlabelled).2.1, by decide⟩

end AiNewsScraper
